import Mathlib

/-!
Shallow embedding of the FAT32 read-only driver (`src/fat32`) and proofs of
the specification claims about it.

Bytes are modelled as `Nat` values (always written by the parsing functions
modulo nothing: the device hands over raw byte values `< 256`, but none of the
claims depend on that bound).  On-disk buffers are `List Nat`.  Little-endian
scalars are decoded explicitly from byte offsets that mirror the `#[repr(C,
packed)]` struct layouts of the source.
-/

set_option autoImplicit false
set_option maxRecDepth 8000

namespace Fat32

/-- Error kinds of `std::io::ErrorKind` that the driver actually uses. -/
inductive IoKind
  | notFound
  | unexpectedEof
  | invalidInput
  | other
  deriving DecidableEq

/-- Model of `std::io::Error`: a kind plus a message string. -/
structure IoError where
  kind : IoKind
  msg : String
  deriving DecidableEq

/-- Little-endian 16-bit read at byte offset `i` (missing bytes read as 0,
matching the zero-initialised buffers of the source). -/
def u16le (buf : List Nat) (i : Nat) : Nat :=
  buf.getD i 0 + 256 * buf.getD (i + 1) 0

/-- Little-endian 32-bit read at byte offset `i`. -/
def u32le (buf : List Nat) (i : Nat) : Nat :=
  buf.getD i 0 + 256 * buf.getD (i + 1) 0 + 65536 * buf.getD (i + 2) 0 +
    16777216 * buf.getD (i + 3) 0

/-! ## MBR (`src/fat32/src/mbr.rs`) -/

/-- `mbr::Error`. -/
inductive MbrError
  | io (e : IoError)
  | unknownBootIndicator (i : Nat)
  | badSignature
  deriving DecidableEq

/-- `mbr::PartitionEntry` (16 bytes, packed): boot (1), CHS start (3),
type (1), CHS end (3), relative sector (4), total sectors (4). -/
structure PartitionEntry where
  boot : Nat
  chsStart : List Nat
  partType : Nat
  chsEnd : List Nat
  relativeSector : Nat
  totalSectors : Nat
  deriving DecidableEq

/-- Decoding of one 16-byte partition record at byte offset `off`,
mirroring the packed struct layout. -/
def parsePartition (buf : List Nat) (off : Nat) : PartitionEntry :=
  { boot := buf.getD off 0
    chsStart := [buf.getD (off + 1) 0, buf.getD (off + 2) 0, buf.getD (off + 3) 0]
    partType := buf.getD (off + 4) 0
    chsEnd := [buf.getD (off + 5) 0, buf.getD (off + 6) 0, buf.getD (off + 7) 0]
    relativeSector := u32le buf (off + 8)
    totalSectors := u32le buf (off + 12) }

/-- `mbr::MasterBootRecord` (512 bytes, packed): bootstrap 436, disk id 10,
four partition records at offsets 446/462/478/494, signature at 510. -/
structure MasterBootRecord where
  bootstrap : List Nat
  diskId : List Nat
  partitionTable : List PartitionEntry
  signature : List Nat
  deriving DecidableEq

/-- The `mem::transmute` of the 512-byte sector buffer into a
`MasterBootRecord`, expressed as explicit field decoding. -/
def parseMbr (buf : List Nat) : MasterBootRecord :=
  { bootstrap := buf.take 436
    diskId := (buf.drop 436).take 10
    partitionTable :=
      [parsePartition buf 446, parsePartition buf 462,
       parsePartition buf 478, parsePartition buf 494]
    signature := [buf.getD 510 0, buf.getD 511 0] }

/-- The boot-indicator loop of `MasterBootRecord::from`: the first record
whose boot byte is neither 0x00 nor 0x80 aborts with its index. -/
def checkBootIndicators (m : MasterBootRecord) :
    List (Nat × PartitionEntry) → Except MbrError MasterBootRecord
  | [] => .ok m
  | (i, p) :: rest =>
    if p.boot ≠ 0x00 ∧ p.boot ≠ 0x80 then .error (.unknownBootIndicator i)
    else checkBootIndicators m rest

/-- `MasterBootRecord::from`.  `buf` is the 512-byte buffer after the
`read_sector(0, ..)` call (zero-padded, as the source zero-initialises it)
and `n` is the byte count that call returned. -/
def mbrFrom (buf : List Nat) (n : Nat) : Except MbrError MasterBootRecord :=
  if n ≠ 512 then .error (.io ⟨.unexpectedEof, "bad MBR size"⟩)
  else
    let mbr := parseMbr buf
    if mbr.signature ≠ [0x55, 0xAA] then .error .badSignature
    else checkBootIndicators mbr mbr.partitionTable.enum

/-- `MasterBootRecord::first_fat32`: scan the partition table in order for
the first record of type 0x0B or 0x0C. -/
def firstFat32 (m : MasterBootRecord) : Except IoError PartitionEntry :=
  match m.partitionTable.find? (fun p => p.partType == 0x0B || p.partType == 0x0C) with
  | some p => .ok p
  | none => .error ⟨.other, "FAT32 partition not found"⟩

/-! ## EBPB (`src/fat32/src/vfat/ebpb.rs`) -/

/-- `vfat::Error`, modelled with the variants the decoded claims use.
Modelled from the spec: the file declaring `vfat::Error` is not under
`src/`; §6 lists the error codes (BadSignature, ..., Io(underlying)). -/
inductive FatError
  | io (e : IoError)
  | badSignature
  deriving DecidableEq

/-- `vfat::BiosParameterBlock` (512 bytes, packed).  Byte offsets of the
scalar fields: jmp 0, oem id 3, bytes per sector 11, sectors per cluster 13,
reserved sectors 14, FAT count 16, max dir entries 17, small sector count 19,
fat id 21, sectors per FAT (16-bit) 22, sectors per track 24, heads 26,
hidden sectors 28, large sector count 32, sectors per FAT (32-bit) 36,
flags 40, FAT version 42, root dir cluster 44, FSInfo sector 48, backup boot
sector 50, reserved 52 (12 bytes), drive number 64, reserved2 65,
signature 66, volume serial 67, volume label 71 (11 bytes), system id 82
(8 bytes), boot code 90 (420 bytes), bootable signature 510. -/
structure BiosParameterBlock where
  jmp : List Nat
  oemId : List Nat
  bytesPerSector : Nat
  sectorsPerCluster : Nat
  sectorsReserved : Nat
  fatsNumber : Nat
  maxDirEntries : Nat
  logicalSectorsSmall : Nat
  fatId : Nat
  sectorsPerFat16 : Nat
  sectorsPerTrack : Nat
  heads : Nat
  hiddenSectors : Nat
  logicalSectorsBig : Nat
  sectorsPerFat : Nat
  flags : Nat
  fatVer : Nat
  rootDirCluster : Nat
  fsinfoSector : Nat
  backupBootSector : Nat
  driveNumber : Nat
  signature : Nat
  volumeSerial : Nat
  volumeLabel : List Nat
  systemId : List Nat
  bootableSignature : Nat
  deriving DecidableEq

/-- The `mem::transmute` of the 512-byte sector buffer into a
`BiosParameterBlock` (boot code and the 12 reserved bytes are carried by the
buffer itself and not named, as no accessor exposes them). -/
def parseEbpb (buf : List Nat) : BiosParameterBlock :=
  { jmp := buf.take 3
    oemId := (buf.drop 3).take 8
    bytesPerSector := u16le buf 11
    sectorsPerCluster := buf.getD 13 0
    sectorsReserved := u16le buf 14
    fatsNumber := buf.getD 16 0
    maxDirEntries := u16le buf 17
    logicalSectorsSmall := u16le buf 19
    fatId := buf.getD 21 0
    sectorsPerFat16 := u16le buf 22
    sectorsPerTrack := u16le buf 24
    heads := u16le buf 26
    hiddenSectors := u32le buf 28
    logicalSectorsBig := u32le buf 32
    sectorsPerFat := u32le buf 36
    flags := u16le buf 40
    fatVer := u16le buf 42
    rootDirCluster := u32le buf 44
    fsinfoSector := u16le buf 48
    backupBootSector := u16le buf 50
    driveNumber := buf.getD 64 0
    signature := buf.getD 66 0
    volumeSerial := u32le buf 67
    volumeLabel := (buf.drop 71).take 11
    systemId := (buf.drop 82).take 8
    bootableSignature := u16le buf 510 }

/-- `BiosParameterBlock::from`.  `buf` is the sector buffer after the
successful `read_sector(sector, ..)` call and `n` the byte count that call
returned; the source binds that count to `_ebpb_size` and never uses it. -/
def ebpbFrom (buf : List Nat) (_ebpbSize : Nat) : Except FatError BiosParameterBlock :=
  let ebpb := parseEbpb buf
  if ebpb.signature ≠ 0x28 ∧ ebpb.signature ≠ 0x29 then .error .badSignature
  else .ok ebpb

/-! ## Timestamps (`src/fat32/src/vfat/metadata.rs`) -/

/-- `vfat::Timestamp`: raw 16-bit on-disk date and time values. -/
structure Timestamp where
  date : Nat
  time : Nat
  deriving DecidableEq

/-- `Timestamp::year`. -/
def Timestamp.year (t : Timestamp) : Nat :=
  ((t.date &&& 0xFE00) >>> 9) + 1980

/-- `Timestamp::month` (note the source adds 1 to the stored field). -/
def Timestamp.month (t : Timestamp) : Nat :=
  ((t.date &&& 0x01E0) >>> 5) + 1

/-- `Timestamp::day` (note the source adds 1 to the stored field). -/
def Timestamp.day (t : Timestamp) : Nat :=
  (t.date &&& 0x001F) + 1

/-- `Timestamp::hour`. -/
def Timestamp.hour (t : Timestamp) : Nat :=
  (t.time &&& 0xF800) >>> 11

/-- `Timestamp::minute`. -/
def Timestamp.minute (t : Timestamp) : Nat :=
  (t.time &&& 0x07E0) >>> 5

/-- `Timestamp::second`. -/
def Timestamp.second (t : Timestamp) : Nat :=
  (t.time &&& 0x001F) * 2

/-- `vfat::Metadata`: attributes plus three timestamps. -/
structure Metadata where
  attr : Nat
  created : Timestamp
  accessed : Timestamp
  modified : Timestamp
  deriving DecidableEq

/-! ## Clusters and FAT entries (`src/fat32/src/vfat/cluster.rs`) -/

/-- `Cluster::from`: mask off the upper four bits of the raw 32-bit value. -/
def Cluster.fromRaw (raw : Nat) : Nat :=
  raw &&& 0x0FFFFFFF

/-- `Cluster::data_index`: `checked_sub(2)`, an I/O error below cluster 2. -/
def Cluster.dataIndex (c : Nat) : Except IoError Nat :=
  if c < 2 then .error ⟨.other, "cluster number must be > 2"⟩
  else .ok (c - 2)

/-- `vfat::Status`: classification of a FAT entry. -/
inductive Status
  | free
  | reserved
  | data (next : Nat)
  | bad
  | eoc (raw : Nat)
  deriving DecidableEq

/-- Modelled from the spec: `FatEntry::status` lives in a file that is not
under `src/` (only its callers are).  §3 classifies the low 28 bits of the
entry: 0 Free, 1 Reserved, 2..0x0FFFFFEF Data(next), 0x0FFFFFF0..0x0FFFFFF6
Reserved, 0x0FFFFFF7 Bad, 0x0FFFFFF8..0x0FFFFFFF Eoc; §4.5 wraps the Data
next-cluster as a `Cluster` (upper nibble masked, which the low-28 mask
already ensures). -/
def FatEntry.status (v : Nat) : Status :=
  let x := v &&& 0x0FFFFFFF
  if x = 0 then .free
  else if x = 1 then .reserved
  else if x ≤ 0x0FFFFFEF then .data x
  else if x ≤ 0x0FFFFFF6 then .reserved
  else if x = 0x0FFFFFF7 then .bad
  else .eoc v

/-! ## Cluster / chain engine (`src/fat32/src/vfat/vfat.rs`) -/

/-- Geometry fields of `vfat::VFat` (the cached device is modelled separately
as a sector-indexed function). -/
structure VFatGeom where
  bytesPerSector : Nat
  sectorsPerCluster : Nat
  sectorsPerFat : Nat
  fatStartSector : Nat
  dataStartSector : Nat

/-- Modelled from the spec: `CachedDevice::read_sector` lives in a file that
is not under `src/`.  Per §4.1/§4.2 a read copies the sector's bytes into the
front of `dst` and returns the byte count written (which must equal the
sector size; our theorems only invoke it with room for a whole sector). -/
def readSectorInto (sector : List Nat) (dst : List Nat) : List Nat × Nat :=
  let n := min sector.length dst.length
  (sector.take n ++ dst.drop n, n)

/-- The `for sec in start_sector..last_sector_to_read` loop of
`VFat::read_cluster`: each iteration reads one sector into `dst[read..]` and
advances `read` by the byte count. -/
def readClusterLoop (dev : Nat → List Nat) (start : Nat) (cnt : Nat)
    (dst : List Nat) (read : Nat) : List Nat × Nat :=
  match cnt with
  | 0 => (dst, read)
  | c + 1 =>
    let res := readSectorInto (dev start) (dst.drop read)
    readClusterLoop dev (start + 1) c (dst.take read ++ res.1) (read + res.2)

/-- `VFat::read_cluster(cluster, offset, buf)`: returns the final contents of
`buf` together with the byte count the source returns. -/
def readCluster (g : VFatGeom) (dev : Nat → List Nat) (cluster : Nat)
    (offset : Nat) (dst : List Nat) : Except IoError (List Nat × Nat) :=
  match Cluster.dataIndex cluster with
  | .error e => .error e
  | .ok di =>
    let firstSectorOfCluster := g.dataStartSector + di * g.sectorsPerCluster
    let lastSectorOfCluster := firstSectorOfCluster + g.sectorsPerCluster
    let startSector := firstSectorOfCluster + offset
    let bufSizeInSectors := dst.length / g.bytesPerSector
    let lastSectorToRead := min lastSectorOfCluster (startSector + bufSizeInSectors)
    .ok (readClusterLoop dev startSector (lastSectorToRead - startSector) dst 0)

/-- The loop of `VFat::read_chain` together with its trailing `match`: while
the FAT entry of the current cluster is `Data(next)`, grow `buf` by one
cluster's worth of zero bytes, read the current cluster into `buf[read..]`
and advance; on `Eoc` read the last cluster the same way and return; on
`Free`/`Bad`/`Reserved` fail with the corresponding message.  `fuel` bounds
the number of Data links followed (the source loops unboundedly on cyclic
chains; every theorem below supplies enough fuel for its chain). -/
def readChainLoop (g : VFatGeom) (dev : Nat → List Nat) (fat : Nat → Nat)
    (fuel : Nat) (cluster : Nat) (buf : List Nat) (read : Nat) :
    Except IoError (List Nat × Nat) :=
  match FatEntry.status (fat cluster) with
  | .data next =>
    match fuel with
    | 0 => .error ⟨.other, "chain fuel exhausted"⟩
    | f + 1 =>
      let buf2 := buf ++ List.replicate (g.bytesPerSector * g.sectorsPerCluster) 0
      match readCluster g dev cluster 0 (buf2.drop read) with
      | .error e => .error e
      | .ok (slice, n) =>
        readChainLoop g dev fat f next (buf2.take read ++ slice) (read + n)
  | .eoc _ =>
    let buf2 := buf ++ List.replicate (g.bytesPerSector * g.sectorsPerCluster) 0
    match readCluster g dev cluster 0 (buf2.drop read) with
    | .error e => .error e
    | .ok (slice, n) => .ok (buf2.take read ++ slice, read + n)
  | .free => .error ⟨.other, "can\x27t read from free sector"⟩
  | .bad => .error ⟨.other, "can\x27t read from bad sector"⟩
  | .reserved => .error ⟨.other, "can\x27t read from reserved sector"⟩

/-- `VFat::read_chain(start, buf)` with `buf` initially empty, as both of its
callers (`Dir::entries` and `File::read`) invoke it. -/
def readChain (g : VFatGeom) (dev : Nat → List Nat) (fat : Nat → Nat)
    (fuel : Nat) (start : Nat) : Except IoError (List Nat × Nat) :=
  readChainLoop g dev fat fuel start [] 0

/-- The bytes of one whole cluster as laid out on the device: the
`sectors_per_cluster` consecutive sectors starting at
`data_start_sector + (c - 2) * sectors_per_cluster`. -/
def clusterData (g : VFatGeom) (dev : Nat → List Nat) (c : Nat) : List Nat :=
  ((List.range g.sectorsPerCluster).map
     (fun i => dev (g.dataStartSector + (c - 2) * g.sectorsPerCluster + i))).flatten

/-- A well-formed FAT chain: `FatChain fat c cs` says that the chain starting
at cluster `c` consists exactly of the clusters `cs`, linked by `Data`
entries and terminated by an `Eoc` entry. -/
inductive FatChain (fat : Nat → Nat) : Nat → List Nat → Prop
  | eoc (c raw : Nat) : FatEntry.status (fat c) = .eoc raw → FatChain fat c [c]
  | data (c next : Nat) (rest : List Nat) :
      FatEntry.status (fat c) = .data next → FatChain fat next rest →
      FatChain fat c (c :: rest)

/-- A chain prefix that reaches a `Free`, `Bad` or `Reserved` entry:
`FatChainBad fat c cs s` says that following `Data` links from `c` through
the clusters `cs` ends at a cluster whose FAT entry has the bad status `s`. -/
inductive FatChainBad (fat : Nat → Nat) : Nat → List Nat → Status → Prop
  | here (c : Nat) (s : Status) : FatEntry.status (fat c) = s →
      s = .free ∨ s = .bad ∨ s = .reserved → FatChainBad fat c [c] s
  | step (c next : Nat) (rest : List Nat) (s : Status) :
      FatEntry.status (fat c) = .data next → FatChainBad fat next rest s →
      FatChainBad fat c (c :: rest) s

/-- The error message `read_chain` produces for each bad status. -/
def badStatusMsg : Status → String
  | .free => "can\x27t read from free sector"
  | .bad => "can\x27t read from bad sector"
  | .reserved => "can\x27t read from reserved sector"
  | _ => ""

/-! ## File reads (`src/fat32/src/vfat/file.rs`) -/

/-- `<File as io::Read>::read`.  `size` and `readPtr` are the file's fields,
`chainResult` is the outcome `read_chain(self.cluster, &mut buf_vec)` would
produce (the buffer it fills), and `dst` the caller's buffer.  Returns the
final `dst`, the new `read_ptr`, and the byte count returned.  The `size = 0`
early return happens before the chain is read. -/
def fileRead (size readPtr : Nat) (chainResult : Except IoError (List Nat))
    (dst : List Nat) : Except IoError (List Nat × Nat × Nat) :=
  if size = 0 then .ok (dst, readPtr, 0)
  else
    match chainResult with
    | .error e => .error e
    | .ok chain =>
      let leftToRead := size - readPtr
      let bytesToCopy := min leftToRead dst.length
      .ok ((chain.drop readPtr).take bytesToCopy ++ dst.drop bytesToCopy,
           readPtr + bytesToCopy, bytesToCopy)

/-- Repeated `File::read` calls with fresh zeroed buffers of the given chunk
sizes, concatenating the bytes each call reports as read. -/
def readChunks (size : Nat) (chain : List Nat) (readPtr : Nat) :
    List Nat → List Nat
  | [] => []
  | c :: cs =>
    match fileRead size readPtr (.ok chain) (List.replicate c 0) with
    | .error _ => []
    | .ok (out, ptr2, n) => out.take n ++ readChunks size chain ptr2 cs

/-! ## Directory entries (`src/fat32/src/vfat/dir.rs`)

A 32-byte on-disk record is a `List Nat` of its bytes; the three union
interpretations (`VFatUnknownDirEntry`, `VFatRegularDirEntry`,
`VFatLfnDirEntry`) are the accessor functions below, reading the packed
layouts at their byte offsets. -/

/-- `VFatUnknownDirEntry::is_end`: first byte 0x00. -/
def recIsEnd (r : List Nat) : Bool :=
  r.headD 0 == 0x00

/-- `VFatUnknownDirEntry::is_deleted`: first byte 0xE5. -/
def recIsDeleted (r : List Nat) : Bool :=
  r.headD 0 == 0xE5

/-- `VFatUnknownDirEntry::is_lfn`: attribute byte (offset 11) 0x0F. -/
def recIsLfn (r : List Nat) : Bool :=
  r.getD 11 0 == 0x0F

/-- `VFatLfnDirEntry.seq_number` (byte 0). -/
def lfnSeq (r : List Nat) : Nat :=
  r.headD 0

/-- The 13 UCS-2 units of an LFN record: `name1` (5 units at offset 1),
`name2` (6 units at offset 14), `name3` (2 units at offset 28). -/
def lfnUnits (r : List Nat) : List Nat :=
  [u16le r 1, u16le r 3, u16le r 5, u16le r 7, u16le r 9,
   u16le r 14, u16le r 16, u16le r 18, u16le r 20, u16le r 22, u16le r 24,
   u16le r 28, u16le r 30]

/-- The three `copy_from_slice` calls of the LFN loop: write the record's 13
units into the accumulator at offset `pos`. -/
def lfnWrite (buf : List Nat) (pos : Nat) (r : List Nat) : List Nat :=
  buf.take pos ++ lfnUnits r ++ buf.drop (pos + 13)

/-- `std::char::decode_utf16` over raw 16-bit units, yielding scalar values
with U+FFFD for unpaired surrogates (the `unwrap_or(REPLACEMENT_CHARACTER)`
of the source). -/
def decodeUtf16 : List Nat → List Nat
  | [] => []
  | [u] => if u < 0xD800 ∨ 0xE000 ≤ u then [u] else [0xFFFD]
  | u :: v :: rest =>
    if u < 0xD800 ∨ 0xE000 ≤ u then u :: decodeUtf16 (v :: rest)
    else if u < 0xDC00 ∧ 0xDC00 ≤ v ∧ v < 0xE000 then
      (0x10000 + (u - 0xD800) * 0x400 + (v - 0xDC00)) :: decodeUtf16 rest
    else 0xFFFD :: decodeUtf16 (v :: rest)

/-- `dir::ucs_2_to_string`, producing the scalar values of the resulting
string: units up to the first 0x0000 or 0xFFFF terminator, UTF-16 decoded. -/
def ucs2ToString (arr : List Nat) : List Nat :=
  decodeUtf16 (arr.takeWhile (fun x => x != 0x0000 && x != 0xFFFF))

/-- `dir::ascii_to_string`: bytes up to the first 0x00 or 0x20, `none` if
that prefix is empty. -/
def asciiToString (arr : List Nat) : Option (List Nat) :=
  let s := arr.takeWhile (fun x => x != 0x00 && x != 0x20)
  if s.isEmpty then none else some s

/-- A `vfat::File` as constructed by the iterator (names are scalar-value
lists; the shared volume handle carries no data and is omitted). -/
structure FileEnt where
  name : List Nat
  cluster : Nat
  metadata : Metadata
  size : Nat
  deriving DecidableEq

/-- A `vfat::Dir` as constructed by the iterator. -/
structure DirEnt where
  name : List Nat
  cluster : Nat
  metadata : Metadata
  deriving DecidableEq

/-- `vfat::Entry`. -/
inductive Entry
  | file (f : FileEnt)
  | dir (d : DirEnt)
  deriving DecidableEq

/-- Outcome of one `EntryIter::next` call: `yield e i` returns `Some(e)`
leaving `self.index = i`, `done` returns `None`, and `panic` marks the
places where the source would panic (out-of-bounds indexing, the
`(seq & 0x1F) - 1` underflow, an out-of-range LFN ordinal, or the
`ascii_to_string(..).unwrap()` on an empty short name). -/
inductive NextResult
  | yield (e : Entry) (idx : Nat)
  | done
  | panic
  deriving DecidableEq

/-- `VFatRegularDirEntry::metadata`: ctime at offset 14, cdate 16, adate 18
(accessed time hardcoded 0), mtime 22, mdate 24, attributes at 11. -/
def regularMetadata (r : List Nat) : Metadata :=
  { attr := r.getD 11 0
    created := { date := u16le r 16, time := u16le r 14 }
    accessed := { date := u16le r 18, time := 0 }
    modified := { date := u16le r 24, time := u16le r 22 } }

/-- `VFatRegularDirEntry::cluster`: `(cluster_hi << 16) | cluster_lo`
(offsets 20 and 26), wrapped by `Cluster::from`. -/
def regularCluster (r : List Nat) : Nat :=
  Cluster.fromRaw ((u16le r 20) <<< 16 ||| u16le r 26)

/-- The entry-construction tail of `EntryIter::next`: build the name (LFN
accumulator if any fragment was collected, otherwise the trimmed
`NAME.EXT` 8.3 fields at offsets 0 and 8), and wrap as `Dir` or `File`
depending on attribute bit 0x10.  `none` models the panicking
`ascii_to_string(&regular.name).unwrap()`. -/
def buildEntry (r : List Nat) (lfnName : List Nat) (lfnFound : Bool) :
    Option Entry :=
  let nameOpt :=
    if lfnFound then some (ucs2ToString lfnName)
    else
      match asciiToString ((r.drop 8).take 3) with
      | none => asciiToString (r.take 8)
      | some ext =>
        match asciiToString (r.take 8) with
        | none => none
        | some s => some (s ++ [0x2E] ++ ext)
  match nameOpt with
  | none => none
  | some name =>
    if r.getD 11 0 &&& 0x10 ≠ 0 then
      some (.dir { name := name, cluster := regularCluster r,
                   metadata := regularMetadata r })
    else
      some (.file { name := name, cluster := regularCluster r,
                    metadata := regularMetadata r, size := u32le r 28 })

/-- The second `while` of `EntryIter::next` (`while !unknown_entry.is_end()`):
skip deleted records, then build and yield the current record as a regular
entry — returning with `self.index` still at that record (`index` is the
absolute index of the head of the remaining record list).  Indexing past the
end of the record array panics. -/
def entryIterScan : List (List Nat) → Nat → List Nat → Bool → NextResult
  | [], _, _, _ => .panic
  | r :: rest, index, lfnName, lfnFound =>
    if recIsEnd r then .done
    else if recIsDeleted r then entryIterScan rest (index + 1) lfnName lfnFound
    else
      match buildEntry r lfnName lfnFound with
      | none => .panic
      | some e => .yield e index

/-- The first `while` of `EntryIter::next` (`while unknown_entry.is_lfn()`):
collect non-deleted LFN fragments into the 260-unit accumulator at offset
`((seq & 0x1F) - 1) * 13`, then fall through to the regular-entry scan. -/
def entryIterLfn : List (List Nat) → Nat → List Nat → Bool → NextResult
  | [], _, _, _ => .panic
  | r :: rest, index, lfnName, lfnFound =>
    if recIsLfn r then
      if lfnSeq r == 0xE5 then entryIterLfn rest (index + 1) lfnName lfnFound
      else
        let seqLow := lfnSeq r &&& 0x1F
        if seqLow = 0 then .panic
        else
          let pos := (seqLow - 1) * 13
          if pos + 13 ≤ 260 then
            entryIterLfn rest (index + 1) (lfnWrite lfnName pos r) true
          else .panic
    else entryIterScan (r :: rest) index lfnName lfnFound

/-- `EntryIter::next` with `self.index = index`: the record array is read
from that index on, the LFN accumulator starts zeroed (260 units) with
`lfn_found = false`. -/
def entryIterNext (entries : List (List Nat)) (index : Nat) : NextResult :=
  entryIterLfn (entries.drop index) index (List.replicate 260 0) false

/-! ## Concrete sample inputs used by witnesses and counterexamples -/

/-- Whether partition record `i` of an MBR sector has a boot byte other than
0x00 or 0x80 (the record's boot byte sits at offset `446 + 16 i`). -/
def badBoot (buf : List Nat) (i : Nat) : Bool :=
  !(buf.getD (446 + 16 * i) 0 == 0x00 || buf.getD (446 + 16 * i) 0 == 0x80)

/-- A 512-byte sector that is all zeroes except for the trailing
0x55, 0xAA signature. -/
def sigOnlyBuf : List Nat :=
  List.replicate 510 0 ++ [0x55, 0xAA]

/-- A 512-byte sector that is all zeroes except for the EBPB signature byte
0x29 at offset 66 (its trailing two bytes are zero, not 0x55, 0xAA). -/
def sigOkEbpbBuf : List Nat :=
  List.replicate 66 0 ++ [0x29] ++ List.replicate 445 0

/-- A regular 32-byte directory record: short name "A", blank extension,
attribute 0x20 (archive), all other fields zero. -/
def regRecEx : List Nat :=
  0x41 :: (List.replicate 11 0x20 ++ List.replicate 20 0)

/-- The end-of-directory record (first byte 0x00). -/
def endRecEx : List Nat :=
  List.replicate 32 0

/-- A directory consisting of one regular record followed by the end
record. -/
def dirRecsEx : List (List Nat) :=
  [regRecEx, endRecEx]

/-- The entry `EntryIter::next` builds from `regRecEx`. -/
def yieldedEntryEx : Entry :=
  .file { name := [0x41], cluster := 0,
          metadata := { attr := 0x20, created := ⟨0, 0⟩, accessed := ⟨0, 0⟩,
                        modified := ⟨0, 0⟩ },
          size := 0 }

/-- A tiny geometry: 2-byte sectors, 2 sectors per cluster, data starting at
sector 5. -/
def gEx : VFatGeom :=
  { bytesPerSector := 2, sectorsPerCluster := 2, sectorsPerFat := 1,
    fatStartSector := 3, dataStartSector := 5 }

/-- A device whose sector `s` holds the two bytes `[s, s + 1]`. -/
def devEx : Nat → List Nat := fun s => [s, s + 1]

/-- A geometry with 1-byte sectors and 1 sector per cluster, data starting
at sector 10. -/
def gChainEx : VFatGeom :=
  { bytesPerSector := 1, sectorsPerCluster := 1, sectorsPerFat := 1,
    fatStartSector := 0, dataStartSector := 10 }

/-- A device whose sector `s` holds the single byte `s`. -/
def devChainEx : Nat → List Nat := fun s => [s]

/-- A FAT with the chain 2 → 3 → Eoc (all other entries Free). -/
def fatChainEx : Nat → Nat :=
  fun c => if c == 2 then 3 else if c == 3 then 0x0FFFFFFF else 0

/-! ## Theorems -/

/-- C1 (amended).  `BiosParameterBlock::from` fails with `BadSignature` if
and only if the EBPB signature byte at offset 66 of the partition's first
sector is neither 0x28 nor 0x29 — the trailing 0x55, 0xAA bytes are not
checked.  When that byte is 0x28 or 0x29, decoding succeeds and exposes
bytes per sector (offset 11), sectors per cluster (13), reserved sector
count (14), FAT count (16), sectors per FAT (36) and root directory
cluster (44). -/
theorem ebpb_badSignature_iff (buf : List Nat) (n : Nat) :
    (ebpbFrom buf n = .error .badSignature ↔
      ¬(buf.getD 66 0 = 0x28 ∨ buf.getD 66 0 = 0x29))
  ∧ ((buf.getD 66 0 = 0x28 ∨ buf.getD 66 0 = 0x29) →
      ebpbFrom buf n = .ok (parseEbpb buf)
      ∧ (parseEbpb buf).bytesPerSector = u16le buf 11
      ∧ (parseEbpb buf).sectorsPerCluster = buf.getD 13 0
      ∧ (parseEbpb buf).sectorsReserved = u16le buf 14
      ∧ (parseEbpb buf).fatsNumber = buf.getD 16 0
      ∧ (parseEbpb buf).sectorsPerFat = u32le buf 36
      ∧ (parseEbpb buf).rootDirCluster = u32le buf 44) := by
  have hsig : (parseEbpb buf).signature = buf.getD 66 0 := rfl
  by_cases h : buf.getD 66 0 = 0x28 ∨ buf.getD 66 0 = 0x29
  · have hcond : ¬((parseEbpb buf).signature ≠ 0x28 ∧ (parseEbpb buf).signature ≠ 0x29) := by
      rw [hsig]; tauto
    constructor
    · rw [ebpbFrom, if_neg hcond]
      simp only [reduceCtorEq, false_iff]
      tauto
    · intro _
      rw [ebpbFrom, if_neg hcond]
      exact ⟨rfl, rfl, rfl, rfl, rfl, rfl, rfl⟩
  · have hcond : (parseEbpb buf).signature ≠ 0x28 ∧ (parseEbpb buf).signature ≠ 0x29 := by
      rw [hsig]; tauto
    constructor
    · rw [ebpbFrom, if_pos hcond]
      simp only [Except.error.injEq, true_iff]
      exact h
    · intro hc
      exact absurd hc h

/-- C1 counterexample.  A sector whose trailing two bytes are 0x55, 0xAA
(and whose offset-66 byte is 0) is rejected with `BadSignature`, although
the claim says decoding must succeed whenever the trailing bytes are
0x55, 0xAA. -/
theorem ebpb_trailing_sig_counterexample :
    (sigOnlyBuf.getD 510 0 = 0x55 ∧ sigOnlyBuf.getD 511 0 = 0xAA)
  ∧ ebpbFrom sigOnlyBuf 512 = .error .badSignature := by
  constructor
  · constructor <;> rfl
  · rfl

/-- C1 witness: a sector with signature byte 0x29 at offset 66 decodes
successfully. -/
theorem ebpb_badSignature_iff_witness :
    (sigOkEbpbBuf.getD 66 0 = 0x28 ∨ sigOkEbpbBuf.getD 66 0 = 0x29)
  ∧ ebpbFrom sigOkEbpbBuf 512 = .ok (parseEbpb sigOkEbpbBuf) :=
  ⟨Or.inr (by rfl),
   ((ebpb_badSignature_iff sigOkEbpbBuf 512).2 (Or.inr (by rfl))).1⟩

/-- C2 (code bug).  For a directory holding one regular record followed by
an end record, `EntryIter::next` yields the entry but leaves `self.index`
unchanged (the source never advances the index when it returns a regular
entry), so the immediately following call yields the very same entry again
instead of `None`: iteration never halts. -/
theorem entryIter_repeats_entry :
    entryIterNext dirRecsEx 0 = .yield yieldedEntryEx 0
  ∧ (match entryIterNext dirRecsEx 0 with
     | .yield _ i => entryIterNext dirRecsEx i
     | r => r) = .yield yieldedEntryEx 0 := by
  constructor <;> rfl

/-- C3 (code bug).  The source adds 1 to the stored month and day fields:
for a date whose bits 8–5 hold 12 (December) `month()` returns 13, and for
a date whose bits 4–0 hold 31 `day()` returns 32 — outside the ranges
[1, 12] and [1, 31] that both the spec and the accessors' own documentation
promise.  The year, hour, minute and second accessors match the claim. -/
theorem timestamp_month_day_off_by_one :
    Timestamp.month ⟨0x0180, 0⟩ = 13
  ∧ Timestamp.day ⟨0x001F, 0⟩ = 32
  ∧ ((0x0180 &&& 0x01E0) >>> 5 = 12 ∧ 0x001F &&& 0x001F = 31) := by
  decide

/-- Characterization of a successful `List.find?`: the found element occurs
at some index and every earlier element fails the predicate. -/
lemma find?_first_char {α : Type} (p : α → Bool) :
    ∀ (l : List α) (x : α), l.find? p = some x →
    ∃ i : Nat, l[i]? = some x ∧ p x = true ∧
      ∀ j : Nat, j < i → ∀ y, l[j]? = some y → p y = false := by
  intro l
  induction l with
  | nil => intro x h; simp [List.find?] at h
  | cons a l ih =>
    intro x h
    by_cases hpa : p a = true
    · rw [List.find?_cons_of_pos _ hpa] at h
      refine ⟨0, ?_, ?_, ?_⟩
      · simpa using h
      · cases h; exact hpa
      · intro j hj; omega
    · rw [List.find?_cons_of_neg _ (by simpa using hpa)] at h
      obtain ⟨i, hi, hpx, hbelow⟩ := ih x h
      refine ⟨i + 1, by simpa using hi, hpx, ?_⟩
      intro j hj y hy
      match j with
      | 0 =>
        simp only [List.getElem?_cons_zero, Option.some.injEq] at hy
        subst hy
        simpa using hpa
      | k + 1 =>
        simp only [List.getElem?_cons_succ] at hy
        exact hbelow k (by omega) y hy

/-- C7 (amended).  `first_fat32()` scans the partition records in order and
returns the first whose partition type byte is 0x0B or 0x0C; if no record
has such a type byte it fails with an I/O error of kind Other (message
"FAT32 partition not found"), not with the NotFound error kind. -/
theorem first_fat32_spec (m : MasterBootRecord) :
    (∀ p, firstFat32 m = .ok p →
       ∃ i : Nat, m.partitionTable[i]? = some p
         ∧ (p.partType = 0x0B ∨ p.partType = 0x0C)
         ∧ ∀ j : Nat, j < i → ∀ q, m.partitionTable[j]? = some q →
             ¬(q.partType = 0x0B ∨ q.partType = 0x0C))
  ∧ ((∀ p ∈ m.partitionTable, ¬(p.partType = 0x0B ∨ p.partType = 0x0C)) →
       firstFat32 m = .error ⟨.other, "FAT32 partition not found"⟩)
  ∧ (firstFat32 m = .error ⟨.other, "FAT32 partition not found"⟩ →
       ∀ p ∈ m.partitionTable, ¬(p.partType = 0x0B ∨ p.partType = 0x0C)) := by
  unfold firstFat32
  cases hf : m.partitionTable.find? (fun p => p.partType == 0x0B || p.partType == 0x0C) with
  | some p0 =>
    refine ⟨?_, ?_, ?_⟩
    · intro p hp
      simp only [Except.ok.injEq] at hp
      subst hp
      obtain ⟨i, hi, hpx, hbelow⟩ := find?_first_char _ _ _ hf
      refine ⟨i, hi, by simpa using hpx, ?_⟩
      intro j hj q hq
      have := hbelow j hj q hq
      simpa using this
    · intro hall
      have hmem := List.mem_of_find?_eq_some hf
      have hp0 := List.find?_some hf
      exact absurd (by simpa using hp0) (hall p0 hmem)
    · intro h; cases h
  | none =>
    refine ⟨?_, ?_, ?_⟩
    · intro p hp; cases hp
    · intro _; rfl
    · intro _ p hp
      have := List.find?_eq_none.mp hf p hp
      simpa using this

/-- C7 counterexample.  A successfully parsed MBR with no FAT32 partition:
`first_fat32()` fails with an error of kind Other, not with the NotFound
error kind the claim names. -/
theorem first_fat32_kind_counterexample :
    mbrFrom sigOnlyBuf 512 = .ok (parseMbr sigOnlyBuf)
  ∧ firstFat32 (parseMbr sigOnlyBuf) = .error ⟨.other, "FAT32 partition not found"⟩
  ∧ IoKind.other ≠ IoKind.notFound := by
  refine ⟨by rfl, by rfl, by decide⟩

/-- C7 witness: the amended theorem applied to the concrete signature-only
MBR, whose partition table contains no record of type 0x0B or 0x0C. -/
theorem first_fat32_spec_witness :
    firstFat32 (parseMbr sigOnlyBuf) = .error ⟨.other, "FAT32 partition not found"⟩ :=
  (first_fat32_spec (parseMbr sigOnlyBuf)).2.1 (by decide)

/-- C10.  `BiosParameterBlock::from` ignores the byte count returned by
`read_sector` (the source binds it to `_ebpb_size`): for a successful short
read the outcome is exactly the outcome on a full read of the same
(zero-padded) buffer, and it is never an I/O error — unlike
`MasterBootRecord::from`, which rejects any read shorter than 512 bytes
with `Io(UnexpectedEof)`. -/
theorem ebpb_ignores_read_count (buf : List Nat) (n : Nat) (hn : n < 512) :
    ebpbFrom buf n = ebpbFrom buf 512
  ∧ (∀ e : IoError, ebpbFrom buf n ≠ .error (.io e))
  ∧ mbrFrom buf n = .error (.io ⟨.unexpectedEof, "bad MBR size"⟩) := by
  refine ⟨rfl, ?_, ?_⟩
  · intro e h
    have h2 : (if (parseEbpb buf).signature ≠ 0x28 ∧ (parseEbpb buf).signature ≠ 0x29
          then (Except.error FatError.badSignature : Except FatError BiosParameterBlock)
          else .ok (parseEbpb buf)) = .error (.io e) := h
    split at h2 <;> simp_all
  · rw [mbrFrom, if_pos (by omega)]

/-- C10 witness: a concrete 100-byte read of the EBPB sector parses exactly
as the full read would, while the MBR parser rejects the same short read. -/
theorem ebpb_ignores_read_count_witness :
    ebpbFrom sigOkEbpbBuf 100 = ebpbFrom sigOkEbpbBuf 512
  ∧ mbrFrom sigOkEbpbBuf 100 = .error (.io ⟨.unexpectedEof, "bad MBR size"⟩) :=
  ⟨(ebpb_ignores_read_count sigOkEbpbBuf 100 (by omega)).1,
   (ebpb_ignores_read_count sigOkEbpbBuf 100 (by omega)).2.2⟩

/-- The sector-read loop of `read_cluster`: with a device serving
`bps`-byte sectors and enough room in `dst`, reading `cnt` sectors starting
at `start` overwrites `dst[read .. read + cnt * bps)` with the sectors'
bytes in ascending sector order and advances `read` accordingly. -/
lemma readClusterLoop_spec (dev : Nat → List Nat) (bps : Nat)
    (hdev : ∀ s, (dev s).length = bps) :
    ∀ (cnt start read : Nat) (dst : List Nat), read + cnt * bps ≤ dst.length →
    readClusterLoop dev start cnt dst read =
      (dst.take read ++ ((List.range cnt).map (fun i => dev (start + i))).flatten
         ++ dst.drop (read + cnt * bps),
       read + cnt * bps) := by
  intro cnt
  induction cnt with
  | zero =>
    intro start read dst h
    simp [readClusterLoop, List.take_append_drop]
  | succ c ih =>
    intro start read dst h
    rw [Nat.succ_mul] at h ⊢
    have hread : read ≤ dst.length := by omega
    simp only [readClusterLoop, readSectorInto]
    have hn : min (dev start).length (dst.drop read).length = bps := by
      rw [hdev, List.length_drop]; omega
    rw [hn]
    have htake : (dev start).take bps = dev start := by
      rw [← hdev start]; exact List.take_length _
    have hdropd : (dst.drop read).drop bps = dst.drop (read + bps) :=
      List.drop_drop bps read dst
    rw [htake, hdropd, ← List.append_assoc]
    have hplen : (dst.take read ++ dev start).length = read + bps := by
      simp [hdev]; omega
    have hlen2 : ((dst.take read ++ dev start) ++ dst.drop (read + bps)).length
        = dst.length := by
      simp [hdev]; omega
    rw [ih (start + 1) (read + bps)
        ((dst.take read ++ dev start) ++ dst.drop (read + bps))
        (by rw [hlen2]; omega)]
    have e1 : ((dst.take read ++ dev start) ++ dst.drop (read + bps)).take (read + bps)
        = dst.take read ++ dev start := List.take_left' hplen
    have e2 : ((dst.take read ++ dev start) ++ dst.drop (read + bps)).drop
          (read + bps + c * bps)
        = dst.drop (read + (c * bps + bps)) := by
      rw [← hplen, List.drop_append, List.drop_drop]
      congr 1
      omega
    rw [e1, e2]
    have hmap : List.map ((fun i => dev (start + i)) ∘ Nat.succ) (List.range c)
        = List.map (fun i => dev (start + 1 + i)) (List.range c) := by
      apply List.map_congr_left
      intro i _
      simp only [Function.comp_apply]
      congr 1
      omega
    have e3 : ((List.range (c + 1)).map (fun i => dev (start + i))).flatten
        = dev start ++ ((List.range c).map (fun i => dev (start + 1 + i))).flatten := by
      rw [List.range_succ_eq_map, List.map_cons, List.map_map, List.flatten_cons,
        hmap, Nat.add_zero]
    rw [e3, Prod.mk.injEq]
    refine ⟨by simp [List.append_assoc], by omega⟩

/-- C4.  `VFat::read_cluster(cluster, offset, dst)` with `cluster ≥ 2` reads
`k = min(sectors_per_cluster − offset, ⌊|dst| / bytes_per_sector⌋)` whole
sectors sequentially in ascending order starting at sector
`data_start_sector + (cluster − 2) × sectors_per_cluster + offset` (the
offset counted in sectors), stopping when the cluster's sectors are
exhausted or `dst` cannot hold another whole sector, and returns the byte
count `k × bytes_per_sector` it wrote into the front of `dst`. -/
theorem read_cluster_spec (g : VFatGeom) (dev : Nat → List Nat)
    (cluster offset : Nat) (dst : List Nat) (k : Nat)
    (hdev : ∀ s, (dev s).length = g.bytesPerSector)
    (hcl : 2 ≤ cluster)
    (hk : k = min (g.sectorsPerCluster - offset) (dst.length / g.bytesPerSector)) :
    readCluster g dev cluster offset dst =
      .ok (((List.range k).map
              (fun i => dev (g.dataStartSector + (cluster - 2) * g.sectorsPerCluster
                               + offset + i))).flatten
             ++ dst.drop (k * g.bytesPerSector),
           k * g.bytesPerSector) := by
  rw [readCluster, Cluster.dataIndex, if_neg (by omega)]
  have hcnt : min (g.dataStartSector + (cluster - 2) * g.sectorsPerCluster
        + g.sectorsPerCluster)
      (g.dataStartSector + (cluster - 2) * g.sectorsPerCluster + offset
        + dst.length / g.bytesPerSector)
      - (g.dataStartSector + (cluster - 2) * g.sectorsPerCluster + offset) = k := by
    omega
  simp only
  rw [hcnt]
  have hbound : 0 + k * g.bytesPerSector ≤ dst.length := by
    have h1 : k ≤ dst.length / g.bytesPerSector := by omega
    have h2 : k * g.bytesPerSector ≤ (dst.length / g.bytesPerSector) * g.bytesPerSector :=
      Nat.mul_le_mul_right _ h1
    have h3 : (dst.length / g.bytesPerSector) * g.bytesPerSector ≤ dst.length :=
      Nat.div_mul_le_self _ _
    omega
  rw [readClusterLoop_spec dev g.bytesPerSector hdev k
      (g.dataStartSector + (cluster - 2) * g.sectorsPerCluster + offset) 0 dst hbound]
  simp

/-- C4 witness: on the 2-byte-sector, 2-sector-cluster geometry, reading
cluster 3 from sector offset 1 into a 4-byte buffer reads exactly one
sector (sector 8 = 5 + (3−2)·2 + 1) and returns 2 bytes. -/
theorem read_cluster_spec_witness :
    readCluster gEx devEx 3 1 (List.replicate 4 7) = .ok ([8, 9, 7, 7], 2) := by
  have h := read_cluster_spec gEx devEx 3 1 (List.replicate 4 7) 1
    (by intro s; rfl) (by omega) (by rfl)
  rw [h]
  rfl

/-- Sum of a constant-valued map. -/
lemma sum_map_const_nat : ∀ (l : List Nat) (b : Nat),
    (l.map (fun _ => b)).sum = l.length * b := by
  intro l b
  induction l with
  | nil => simp
  | cons a l ih => simp [ih, Nat.succ_mul]; omega

/-- One cluster's data is `sectors_per_cluster * bytes_per_sector` bytes. -/
lemma clusterData_length (g : VFatGeom) (dev : Nat → List Nat) (c : Nat)
    (hdev : ∀ s, (dev s).length = g.bytesPerSector) :
    (clusterData g dev c).length = g.sectorsPerCluster * g.bytesPerSector := by
  rw [clusterData, List.length_flatten, List.map_map]
  have hmap : List.map
        (List.length ∘ fun i =>
          dev (g.dataStartSector + (c - 2) * g.sectorsPerCluster + i))
        (List.range g.sectorsPerCluster)
      = List.map (fun _ => g.bytesPerSector) (List.range g.sectorsPerCluster) := by
    apply List.map_congr_left
    intro i _
    simp [hdev]
  rw [hmap, sum_map_const_nat, List.length_range]

/-- A `Data` FAT entry always points at a cluster number at least 2. -/
lemma status_data_ge_two {v next : Nat} (h : FatEntry.status v = .data next) :
    2 ≤ next := by
  simp only [FatEntry.status] at h
  split_ifs at h
  all_goals simp_all
  omega

/-- FAT chains are nonempty. -/
lemma fatChain_ne_nil {fat : Nat → Nat} {c : Nat} {cs : List Nat}
    (h : FatChain fat c cs) : cs ≠ [] := by
  cases h <;> simp

/-- `read_cluster` applied the way `read_chain` applies it: offset 0 into a
fresh zeroed buffer of exactly one cluster's size reads the whole cluster. -/
lemma readCluster_whole (g : VFatGeom) (dev : Nat → List Nat) (c : Nat)
    (hdev : ∀ s, (dev s).length = g.bytesPerSector)
    (hbps : 0 < g.bytesPerSector) (hcl : 2 ≤ c) :
    readCluster g dev c 0
        (List.replicate (g.bytesPerSector * g.sectorsPerCluster) 0)
      = .ok (clusterData g dev c, g.sectorsPerCluster * g.bytesPerSector) := by
  rw [readCluster, Cluster.dataIndex, if_neg (by omega)]
  simp only
  have hdiv : g.bytesPerSector * g.sectorsPerCluster / g.bytesPerSector
      = g.sectorsPerCluster := Nat.mul_div_cancel_left _ hbps
  have hcnt : min
      (g.dataStartSector + (c - 2) * g.sectorsPerCluster + g.sectorsPerCluster)
      (g.dataStartSector + (c - 2) * g.sectorsPerCluster + 0
        + (List.replicate (g.bytesPerSector * g.sectorsPerCluster)
            (0 : Nat)).length / g.bytesPerSector)
      - (g.dataStartSector + (c - 2) * g.sectorsPerCluster + 0)
      = g.sectorsPerCluster := by
    rw [List.length_replicate, hdiv]
    omega
  rw [hcnt]
  rw [readClusterLoop_spec dev g.bytesPerSector hdev g.sectorsPerCluster
      (g.dataStartSector + (c - 2) * g.sectorsPerCluster + 0) 0
      (List.replicate (g.bytesPerSector * g.sectorsPerCluster) 0)
      (by rw [List.length_replicate, Nat.mul_comm]; omega)]
  have hdropnil : (List.replicate (g.bytesPerSector * g.sectorsPerCluster)
        (0 : Nat)).drop (0 + g.sectorsPerCluster * g.bytesPerSector) = [] := by
    apply List.drop_eq_nil_of_le
    rw [List.length_replicate, Nat.mul_comm]
    omega
  rw [hdropnil]
  simp [clusterData]

/-- Success of the `read_chain` loop along a well-formed chain: every link
(including the final Eoc cluster) appends exactly one full cluster of data
to the buffer, clusters are visited in chain order, and the returned count
grows by one cluster size per link. -/
lemma readChainLoop_ok (g : VFatGeom) (dev : Nat → List Nat) (fat : Nat → Nat)
    (hdev : ∀ s, (dev s).length = g.bytesPerSector)
    (hbps : 0 < g.bytesPerSector) :
    ∀ (cs : List Nat) (c : Nat), FatChain fat c cs → 2 ≤ c →
    ∀ (fuel : Nat), cs.length ≤ fuel + 1 → ∀ (buf : List Nat),
    readChainLoop g dev fat fuel c buf buf.length =
      .ok (buf ++ (cs.map (clusterData g dev)).flatten,
           buf.length + cs.length * (g.bytesPerSector * g.sectorsPerCluster)) := by
  intro cs c hchain
  induction hchain with
  | eoc c raw hst =>
    intro hc fuel _ buf
    rw [readChainLoop, hst]
    dsimp only
    rw [List.drop_left, readCluster_whole g dev c hdev hbps hc]
    dsimp only
    rw [List.take_left]
    simp only [List.map_cons, List.map_nil, List.flatten_cons,
      List.flatten_nil, List.append_nil, List.length_cons, List.length_nil]
    congr 1
    rw [Prod.mk.injEq]
    refine ⟨rfl, ?_⟩
    rw [Nat.mul_comm g.sectorsPerCluster g.bytesPerSector]
    omega
  | data c next rest hst hrest ih =>
    intro hc fuel hfuel buf
    have hrne : rest ≠ [] := fatChain_ne_nil hrest
    have hrlen : 1 ≤ rest.length := List.length_pos.mpr hrne
    obtain ⟨f, rfl⟩ : ∃ f, fuel = f + 1 := by
      cases fuel with
      | zero =>
        exfalso
        simp only [List.length_cons] at hfuel
        omega
      | succ f => exact ⟨f, rfl⟩
    have hnext2 : 2 ≤ next := status_data_ge_two hst
    rw [readChainLoop, hst]
    dsimp only
    rw [List.drop_left, readCluster_whole g dev c hdev hbps hc]
    dsimp only
    rw [List.take_left]
    have hfb : rest.length ≤ f + 1 := by
      simp only [List.length_cons] at hfuel
      omega
    have hblen : buf.length + g.sectorsPerCluster * g.bytesPerSector
        = (buf ++ clusterData g dev c).length := by
      rw [List.length_append, clusterData_length g dev c hdev]
    rw [hblen, ih hnext2 f hfb (buf ++ clusterData g dev c)]
    simp only [List.map_cons, List.flatten_cons, List.length_cons]
    congr 1
    rw [Prod.mk.injEq]
    refine ⟨by simp [List.append_assoc], ?_⟩
    rw [List.length_append, clusterData_length g dev c hdev, Nat.succ_mul,
      Nat.mul_comm g.sectorsPerCluster g.bytesPerSector]
    omega

/-- The only error `read_cluster` itself produces is the data-index error
for clusters below 2. -/
lemma readCluster_error_eq {g : VFatGeom} {dev : Nat → List Nat} {c off : Nat}
    {dst : List Nat} {e : IoError}
    (h : readCluster g dev c off dst = .error e) :
    e = ⟨.other, "cluster number must be > 2"⟩ := by
  rw [readCluster, Cluster.dataIndex] at h
  by_cases hc : c < 2
  · rw [if_pos hc] at h
    dsimp only at h
    injection h with h2
    exact h2.symm
  · rw [if_neg hc] at h
    dsimp only at h
    exact absurd h (by simp)

/-- Failure of the `read_chain` loop along a chain prefix that reaches a
`Free`, `Bad` or `Reserved` entry: the loop fails with an `other`-kind
error carrying the message for that status. -/
lemma readChainLoop_bad (g : VFatGeom) (dev : Nat → List Nat) (fat : Nat → Nat)
    (hdev : ∀ s, (dev s).length = g.bytesPerSector)
    (hbps : 0 < g.bytesPerSector) :
    ∀ (cs : List Nat) (c : Nat) (s : Status), FatChainBad fat c cs s → 2 ≤ c →
    ∀ (fuel : Nat), cs.length ≤ fuel + 1 → ∀ (buf : List Nat),
    readChainLoop g dev fat fuel c buf buf.length =
      .error ⟨.other, badStatusMsg s⟩ := by
  intro cs c s hbad
  induction hbad with
  | here c s hst hs =>
    intro _ fuel _ buf
    rcases hs with rfl | rfl | rfl <;> (rw [readChainLoop, hst]; rfl)
  | step c next rest s hst hrest ih =>
    intro hc fuel hfuel buf
    have hrne : rest ≠ [] := by cases hrest <;> simp
    have hrlen : 1 ≤ rest.length := List.length_pos.mpr hrne
    obtain ⟨f, rfl⟩ : ∃ f, fuel = f + 1 := by
      cases fuel with
      | zero =>
        exfalso
        simp only [List.length_cons] at hfuel
        omega
      | succ f => exact ⟨f, rfl⟩
    have hnext2 : 2 ≤ next := status_data_ge_two hst
    rw [readChainLoop, hst]
    dsimp only
    rw [List.drop_left, readCluster_whole g dev c hdev hbps hc]
    dsimp only
    rw [List.take_left]
    have hfb : rest.length ≤ f + 1 := by
      simp only [List.length_cons] at hfuel
      omega
    have hblen : buf.length + g.sectorsPerCluster * g.bytesPerSector
        = (buf ++ clusterData g dev c).length := by
      rw [List.length_append, clusterData_length g dev c hdev]
    rw [hblen]
    exact ih hnext2 f hfb (buf ++ clusterData g dev c)

/-- Completeness of the failure case: whenever the `read_chain` loop fails
with one of the three bad-status messages, the FAT chain from the current
cluster does reach a `Free`, `Bad` or `Reserved` entry. -/
lemma readChainLoop_err_reaches_bad (g : VFatGeom) (dev : Nat → List Nat)
    (fat : Nat → Nat) :
    ∀ (fuel c : Nat) (buf : List Nat) (read : Nat) (e : IoError),
    readChainLoop g dev fat fuel c buf read = .error e →
    (e = ⟨.other, badStatusMsg .free⟩ ∨ e = ⟨.other, badStatusMsg .bad⟩
      ∨ e = ⟨.other, badStatusMsg .reserved⟩) →
    ∃ cs s, FatChainBad fat c cs s := by
  intro fuel
  induction fuel with
  | zero =>
    intro c buf read e h hmsg
    cases hst : FatEntry.status (fat c) with
    | free => exact ⟨[c], .free, .here c .free hst (Or.inl rfl)⟩
    | reserved => exact ⟨[c], .reserved, .here c .reserved hst (Or.inr (Or.inr rfl))⟩
    | bad => exact ⟨[c], .bad, .here c .bad hst (Or.inr (Or.inl rfl))⟩
    | data next =>
      rw [readChainLoop, hst] at h
      dsimp only at h
      have he : e = ⟨.other, "chain fuel exhausted"⟩ := by
        injection h with h2
        exact h2.symm
      subst he
      rcases hmsg with hm | hm | hm <;> exact absurd hm (by decide)
    | eoc raw =>
      rw [readChainLoop, hst] at h
      dsimp only at h
      split at h
      · rename_i e2 heq
        have he : e = ⟨.other, "cluster number must be > 2"⟩ := by
          injection h with h2
          rw [← h2]
          exact readCluster_error_eq heq
        subst he
        rcases hmsg with hm | hm | hm <;> exact absurd hm (by decide)
      · simp at h
  | succ f ih =>
    intro c buf read e h hmsg
    cases hst : FatEntry.status (fat c) with
    | free => exact ⟨[c], .free, .here c .free hst (Or.inl rfl)⟩
    | reserved => exact ⟨[c], .reserved, .here c .reserved hst (Or.inr (Or.inr rfl))⟩
    | bad => exact ⟨[c], .bad, .here c .bad hst (Or.inr (Or.inl rfl))⟩
    | data next =>
      rw [readChainLoop, hst] at h
      dsimp only at h
      split at h
      · rename_i e2 heq
        have he : e = ⟨.other, "cluster number must be > 2"⟩ := by
          injection h with h2
          rw [← h2]
          exact readCluster_error_eq heq
        subst he
        rcases hmsg with hm | hm | hm <;> exact absurd hm (by decide)
      · rename_i pr heq
        obtain ⟨cs, s, hb⟩ := ih next _ _ e h hmsg
        exact ⟨c :: cs, s, .step c next cs s hst hb⟩
    | eoc raw =>
      rw [readChainLoop, hst] at h
      dsimp only at h
      split at h
      · rename_i e2 heq
        have he : e = ⟨.other, "cluster number must be > 2"⟩ := by
          injection h with h2
          rw [← h2]
          exact readCluster_error_eq heq
        subst he
        rcases hmsg with hm | hm | hm <;> exact absurd hm (by decide)
      · simp at h

/-- C5.  For a chain of `Data` links ending in an `Eoc` entry (given as the
cluster list `cs`), `read_chain(start, buf)` appends exactly one full
cluster's worth of bytes per link — the final Eoc cluster included — visits
the clusters in chain order (the buffer is their data concatenated in that
order), and returns the total byte count `cs.length` clusters' worth; and
it fails with an I/O error of kind `other` carrying the message naming the
bad status if and only if the chain reaches an entry in state `Free`, `Bad`
or `Reserved`. -/
theorem read_chain_spec (g : VFatGeom) (dev : Nat → List Nat) (fat : Nat → Nat)
    (start fuel : Nat)
    (hdev : ∀ s, (dev s).length = g.bytesPerSector)
    (hbps : 0 < g.bytesPerSector) (hstart : 2 ≤ start) :
    (∀ cs, FatChain fat start cs → cs.length ≤ fuel + 1 →
       readChain g dev fat fuel start =
         .ok ((cs.map (clusterData g dev)).flatten,
              cs.length * (g.bytesPerSector * g.sectorsPerCluster)))
  ∧ (∀ cs s, FatChainBad fat start cs s → cs.length ≤ fuel + 1 →
       readChain g dev fat fuel start = .error ⟨.other, badStatusMsg s⟩)
  ∧ (∀ e, readChain g dev fat fuel start = .error e →
       (e = ⟨.other, badStatusMsg .free⟩ ∨ e = ⟨.other, badStatusMsg .bad⟩
         ∨ e = ⟨.other, badStatusMsg .reserved⟩) →
       ∃ cs s, FatChainBad fat start cs s) := by
  refine ⟨?_, ?_, ?_⟩
  · intro cs hchain hfuel
    have h := readChainLoop_ok g dev fat hdev hbps cs start hchain hstart fuel hfuel []
    rw [readChain]
    simpa using h
  · intro cs s hbad hfuel
    have h := readChainLoop_bad g dev fat hdev hbps cs start s hbad hstart fuel hfuel []
    rw [readChain]
    simpa using h
  · intro e h hmsg
    rw [readChain] at h
    exact readChainLoop_err_reaches_bad g dev fat fuel start [] 0 e h hmsg

/-- C5 witness: on the 1-byte-sector geometry with the FAT chain
2 → 3 → Eoc, `read_chain` reads the two clusters in order (bytes `[10, 11]`)
and returns 2 bytes. -/
theorem read_chain_spec_witness :
    readChain gChainEx devChainEx fatChainEx 1 2 = .ok ([10, 11], 2) := by
  have hchain : FatChain fatChainEx 2 [2, 3] :=
    FatChain.data 2 3 [3] (by decide)
      (FatChain.eoc 3 0x0FFFFFFF (by decide))
  have h := (read_chain_spec gChainEx devChainEx fatChainEx 2 1
      (by intro s; rfl) (by decide) (by decide)).1 [2, 3] hchain (by decide)
  rw [h]
  rfl

/-- Characterization of the least index below 4 satisfying a predicate. -/
lemma first_bad_char {P : Nat → Prop} {k : Nat} (hk : k < 4) (hPk : P k)
    (hb : ∀ j, j < k → ¬ P j) :
    ∀ i : Nat, (k = i) ↔ (i < 4 ∧ P i ∧ ∀ j, j < i → ¬ P j) := by
  intro i
  constructor
  · rintro rfl
    exact ⟨hk, hPk, hb⟩
  · rintro ⟨h4, hPi, hbi⟩
    rcases Nat.lt_trichotomy k i with h | h | h
    · exact absurd hPk (hbi k h)
    · exact h
    · exact absurd hPi (hb i h)

/-- The four-part MBR characterization, assuming the parse stopped at an
unknown boot indicator in record `k`. -/
lemma mbrFrom_spec_of_ubi (buf : List Nat) (k : Nat)
    (hsig : buf.getD 510 0 = 0x55 ∧ buf.getD 511 0 = 0xAA)
    (hE : mbrFrom buf 512 = .error (.unknownBootIndicator k))
    (hk : k < 4) (hbk : badBoot buf k = true)
    (hb : ∀ j, j < k → ¬ badBoot buf j = true) :
    (mbrFrom buf 512 = .error (.io ⟨.unexpectedEof, "bad MBR size"⟩) ↔ 512 < 512)
  ∧ (mbrFrom buf 512 = .error .badSignature ↔
      512 = 512 ∧ ¬(buf.getD 510 0 = 0x55 ∧ buf.getD 511 0 = 0xAA))
  ∧ (∀ i : Nat, mbrFrom buf 512 = .error (.unknownBootIndicator i) ↔
      512 = 512 ∧ (buf.getD 510 0 = 0x55 ∧ buf.getD 511 0 = 0xAA)
        ∧ i < 4 ∧ badBoot buf i = true
        ∧ ∀ j : Nat, j < i → ¬ badBoot buf j = true)
  ∧ (mbrFrom buf 512 = .ok (parseMbr buf) ↔
      512 = 512 ∧ (buf.getD 510 0 = 0x55 ∧ buf.getD 511 0 = 0xAA)
        ∧ ∀ i : Nat, i < 4 → ¬ badBoot buf i = true) := by
  refine ⟨?_, ?_, ?_, ?_⟩
  · rw [hE]
    constructor
    · intro hc; simp at hc
    · intro hc; omega
  · rw [hE]
    constructor
    · intro hc; simp at hc
    · rintro ⟨_, hns⟩; exact absurd hsig hns
  · intro i
    rw [hE]
    simp only [Except.error.injEq, MbrError.unknownBootIndicator.injEq]
    constructor
    · intro hki
      exact ⟨by trivial, hsig, (first_bad_char hk hbk hb i).mp hki⟩
    · rintro ⟨_, _, h4, hbad, hbelow⟩
      exact (first_bad_char hk hbk hb i).mpr ⟨h4, hbad, hbelow⟩
  · rw [hE]
    constructor
    · intro hc; simp at hc
    · rintro ⟨_, _, hall⟩; exact absurd hbk (hall k hk)

/-- The four-part MBR characterization, assuming the parse succeeded. -/
lemma mbrFrom_spec_of_ok (buf : List Nat)
    (hsig : buf.getD 510 0 = 0x55 ∧ buf.getD 511 0 = 0xAA)
    (hE : mbrFrom buf 512 = .ok (parseMbr buf))
    (hall : ∀ i : Nat, i < 4 → ¬ badBoot buf i = true) :
    (mbrFrom buf 512 = .error (.io ⟨.unexpectedEof, "bad MBR size"⟩) ↔ 512 < 512)
  ∧ (mbrFrom buf 512 = .error .badSignature ↔
      512 = 512 ∧ ¬(buf.getD 510 0 = 0x55 ∧ buf.getD 511 0 = 0xAA))
  ∧ (∀ i : Nat, mbrFrom buf 512 = .error (.unknownBootIndicator i) ↔
      512 = 512 ∧ (buf.getD 510 0 = 0x55 ∧ buf.getD 511 0 = 0xAA)
        ∧ i < 4 ∧ badBoot buf i = true
        ∧ ∀ j : Nat, j < i → ¬ badBoot buf j = true)
  ∧ (mbrFrom buf 512 = .ok (parseMbr buf) ↔
      512 = 512 ∧ (buf.getD 510 0 = 0x55 ∧ buf.getD 511 0 = 0xAA)
        ∧ ∀ i : Nat, i < 4 → ¬ badBoot buf i = true) := by
  refine ⟨?_, ?_, ?_, ?_⟩
  · rw [hE]
    constructor
    · intro hc; simp at hc
    · intro hc; omega
  · rw [hE]
    constructor
    · intro hc; simp at hc
    · rintro ⟨_, hns⟩; exact absurd hsig hns
  · intro i
    rw [hE]
    constructor
    · intro hc; simp at hc
    · rintro ⟨_, _, h4, hbad, _⟩; exact absurd hbad (hall i h4)
  · exact ⟨fun _ => ⟨rfl, hsig, hall⟩, fun _ => hE⟩

/-- C6.  `MasterBootRecord::from` fails with `Io(UnexpectedEof)` exactly
when the sector-0 read returns fewer than 512 bytes; on a full read it fails
with `BadSignature` exactly when the bytes at offsets 510–511 are not
0x55, 0xAA; with the signature in place it fails with
`UnknownBootIndicator(i)` exactly for the lowest zero-based record index
`i < 4` whose boot byte (offset 446 + 16 i) is neither 0x00 nor 0x80; and it
succeeds (returning the decoded record) otherwise. -/
theorem mbr_from_spec (buf : List Nat) (n : Nat) (hn : n ≤ 512) :
    (mbrFrom buf n = .error (.io ⟨.unexpectedEof, "bad MBR size"⟩) ↔ n < 512)
  ∧ (mbrFrom buf n = .error .badSignature ↔
      n = 512 ∧ ¬(buf.getD 510 0 = 0x55 ∧ buf.getD 511 0 = 0xAA))
  ∧ (∀ i : Nat, mbrFrom buf n = .error (.unknownBootIndicator i) ↔
      n = 512 ∧ (buf.getD 510 0 = 0x55 ∧ buf.getD 511 0 = 0xAA)
        ∧ i < 4 ∧ badBoot buf i = true
        ∧ ∀ j : Nat, j < i → ¬ badBoot buf j = true)
  ∧ (mbrFrom buf n = .ok (parseMbr buf) ↔
      n = 512 ∧ (buf.getD 510 0 = 0x55 ∧ buf.getD 511 0 = 0xAA)
        ∧ ∀ i : Nat, i < 4 → ¬ badBoot buf i = true) := by
  by_cases h512 : n = 512
  · subst h512
    by_cases hsig : buf.getD 510 0 = 0x55 ∧ buf.getD 511 0 = 0xAA
    · have hsig' : (parseMbr buf).signature = [0x55, 0xAA] := by
        simp only [parseMbr]
        rw [hsig.1, hsig.2]
      have hm : mbrFrom buf 512
          = checkBootIndicators (parseMbr buf) (parseMbr buf).partitionTable.enum := by
        rw [mbrFrom, if_neg (show ¬(512 ≠ 512) by simp)]
        dsimp only
        rw [if_neg (show ¬((parseMbr buf).signature ≠ [0x55, 0xAA]) from by
          rw [hsig']; simp)]
      have htab : (parseMbr buf).partitionTable.enum
          = [(0, parsePartition buf 446), (1, parsePartition buf 462),
             (2, parsePartition buf 478), (3, parsePartition buf 494)] := rfl
      have hc0 : ((parsePartition buf 446).boot ≠ 0x00
            ∧ (parsePartition buf 446).boot ≠ 0x80) ↔ badBoot buf 0 = true := by
        simp [badBoot, parsePartition, not_or]
      have hc1 : ((parsePartition buf 462).boot ≠ 0x00
            ∧ (parsePartition buf 462).boot ≠ 0x80) ↔ badBoot buf 1 = true := by
        simp [badBoot, parsePartition, not_or]
      have hc2 : ((parsePartition buf 478).boot ≠ 0x00
            ∧ (parsePartition buf 478).boot ≠ 0x80) ↔ badBoot buf 2 = true := by
        simp [badBoot, parsePartition, not_or]
      have hc3 : ((parsePartition buf 494).boot ≠ 0x00
            ∧ (parsePartition buf 494).boot ≠ 0x80) ↔ badBoot buf 3 = true := by
        simp [badBoot, parsePartition, not_or]
      by_cases b0 : badBoot buf 0 = true
      · refine mbrFrom_spec_of_ubi buf 0 hsig ?_ (by omega) b0 (by intro j hj; omega)
        rw [hm, htab]
        simp only [checkBootIndicators]
        rw [if_pos (hc0.mpr b0)]
      · by_cases b1 : badBoot buf 1 = true
        · refine mbrFrom_spec_of_ubi buf 1 hsig ?_ (by omega) b1 ?_
          · rw [hm, htab]
            simp only [checkBootIndicators]
            rw [if_neg (fun hx => b0 (hc0.mp hx)), if_pos (hc1.mpr b1)]
          · intro j hj
            interval_cases j
            exact b0
        · by_cases b2 : badBoot buf 2 = true
          · refine mbrFrom_spec_of_ubi buf 2 hsig ?_ (by omega) b2 ?_
            · rw [hm, htab]
              simp only [checkBootIndicators]
              rw [if_neg (fun hx => b0 (hc0.mp hx)),
                if_neg (fun hx => b1 (hc1.mp hx)), if_pos (hc2.mpr b2)]
            · intro j hj
              interval_cases j
              · exact b0
              · exact b1
          · by_cases b3 : badBoot buf 3 = true
            · refine mbrFrom_spec_of_ubi buf 3 hsig ?_ (by omega) b3 ?_
              · rw [hm, htab]
                simp only [checkBootIndicators]
                rw [if_neg (fun hx => b0 (hc0.mp hx)),
                  if_neg (fun hx => b1 (hc1.mp hx)),
                  if_neg (fun hx => b2 (hc2.mp hx)), if_pos (hc3.mpr b3)]
              · intro j hj
                interval_cases j
                · exact b0
                · exact b1
                · exact b2
            · have hall : ∀ i : Nat, i < 4 → ¬ badBoot buf i = true := by
                intro i hi
                interval_cases i
                · exact b0
                · exact b1
                · exact b2
                · exact b3
              refine mbrFrom_spec_of_ok buf hsig ?_ hall
              rw [hm, htab]
              simp only [checkBootIndicators]
              rw [if_neg (fun hx => b0 (hc0.mp hx)),
                if_neg (fun hx => b1 (hc1.mp hx)),
                if_neg (fun hx => b2 (hc2.mp hx)),
                if_neg (fun hx => b3 (hc3.mp hx))]
    · have hm : mbrFrom buf 512 = .error .badSignature := by
        rw [mbrFrom, if_neg (show ¬(512 ≠ 512) by simp)]
        dsimp only
        rw [if_pos (show (parseMbr buf).signature ≠ [0x55, 0xAA] from by
          simp only [parseMbr]
          intro hEq
          simp only [List.cons.injEq, and_true] at hEq
          exact hsig ⟨hEq.1, hEq.2⟩)]
      refine ⟨?_, ?_, ?_, ?_⟩
      · rw [hm]
        constructor
        · intro hc; simp at hc
        · intro hc; omega
      · rw [hm]
        exact ⟨fun _ => ⟨rfl, hsig⟩, fun _ => rfl⟩
      · intro i
        rw [hm]
        constructor
        · intro hc; simp at hc
        · rintro ⟨_, hs, _⟩; exact absurd hs hsig
      · rw [hm]
        constructor
        · intro hc; simp at hc
        · rintro ⟨_, hs, _⟩; exact absurd hs hsig
  · have hm : mbrFrom buf n = .error (.io ⟨.unexpectedEof, "bad MBR size"⟩) := by
      rw [mbrFrom, if_pos h512]
    refine ⟨?_, ?_, ?_, ?_⟩
    · rw [hm]
      exact ⟨fun _ => by omega, fun _ => rfl⟩
    · rw [hm]
      constructor
      · intro hc; simp at hc
      · rintro ⟨h5, _⟩; exact absurd h5 h512
    · intro i
      rw [hm]
      constructor
      · intro hc; simp at hc
      · rintro ⟨h5, _⟩; exact absurd h5 h512
    · rw [hm]
      constructor
      · intro hc; simp at hc
      · rintro ⟨h5, _⟩; exact absurd h5 h512

/-- C6 witness: the signature-only sector parses successfully at a full
512-byte read, and a 100-byte read of the same sector is rejected with
`Io(UnexpectedEof)`. -/
theorem mbr_from_spec_witness :
    mbrFrom sigOnlyBuf 512 = .ok (parseMbr sigOnlyBuf)
  ∧ mbrFrom sigOnlyBuf 100 = .error (.io ⟨.unexpectedEof, "bad MBR size"⟩) :=
  ⟨(mbr_from_spec sigOnlyBuf 512 (by omega)).2.2.2.mpr
      ⟨rfl, by constructor <;> rfl, by decide⟩,
   (mbr_from_spec sigOnlyBuf 100 (by omega)).1.mpr (by omega)⟩

/-- C8.  `File::read(dst)` copies `min(remaining_file_bytes, dst.len())`
bytes of the file's content (the chain bytes) starting at the read cursor
into the front of `dst`, advances the cursor by that count and returns it;
a read at end-of-file (`read_ptr = size`) returns zero bytes; and for a file
of size 0 it returns 0 for every buffer and every chain outcome — the FAT
chain is never consulted (even a failing chain read does not surface). -/
theorem file_read_spec :
    (∀ (size readPtr : Nat) (chain dst : List Nat),
       readPtr ≤ size → size ≤ chain.length →
       fileRead size readPtr (.ok chain) dst =
         .ok ((chain.drop readPtr).take (min (size - readPtr) dst.length)
                ++ dst.drop (min (size - readPtr) dst.length),
              readPtr + min (size - readPtr) dst.length,
              min (size - readPtr) dst.length)
       ∧ ((chain.drop readPtr).take (min (size - readPtr) dst.length)).length
           = min (size - readPtr) dst.length)
  ∧ (∀ (size : Nat) (chain dst : List Nat),
       fileRead size size (.ok chain) dst = .ok (dst, size, 0))
  ∧ (∀ (readPtr : Nat) (cr : Except IoError (List Nat)) (dst : List Nat),
       fileRead 0 readPtr cr dst = .ok (dst, readPtr, 0)) := by
  refine ⟨?_, ?_, ?_⟩
  · intro size readPtr chain dst hptr hsz
    by_cases h0 : size = 0
    · subst h0
      have hp0 : readPtr = 0 := by omega
      subst hp0
      simp [fileRead]
    · constructor
      · rw [fileRead, if_neg h0]
      · have hmin : min (size - readPtr) dst.length ≤ chain.length - readPtr := by
          omega
        simp only [List.length_take, List.length_drop]
        omega
  · intro size chain dst
    by_cases h0 : size = 0
    · subst h0
      simp [fileRead]
    · rw [fileRead, if_neg h0]
      simp
  · intro readPtr cr dst
    rfl

/-- C8 witness: a concrete mid-file read copies exactly the two requested
bytes and advances the cursor, and a zero-size file returns 0 even when the
chain read would fail. -/
theorem file_read_spec_witness :
    fileRead 4 1 (.ok [10, 11, 12, 13, 14]) [0, 0] = .ok ([11, 12], 3, 2)
  ∧ fileRead 0 5 (.error ⟨.other, "ignored"⟩) [0, 0, 0] = .ok ([0, 0, 0], 5, 0) := by
  constructor
  · have h := (file_read_spec.1 4 1 [10, 11, 12, 13, 14] [0, 0]
      (by omega) (by simp)).1
    rw [h]
    rfl
  · exact file_read_spec.2.2 5 (.error ⟨.other, "ignored"⟩) [0, 0, 0]

/-- Chunked reading from cursor `readPtr` yields exactly the chain bytes
from `readPtr` for `min(size − readPtr, Σ chunks)` bytes. -/
lemma readChunks_eq (size : Nat) (chain : List Nat) :
    ∀ (cs : List Nat) (readPtr : Nat), readPtr ≤ size → size ≤ chain.length →
    readChunks size chain readPtr cs =
      (chain.drop readPtr).take (min (size - readPtr) cs.sum) := by
  intro cs
  induction cs with
  | nil =>
    intro ptr h1 h2
    simp [readChunks]
  | cons c cs ih =>
    intro ptr h1 h2
    by_cases hsz : size = 0
    · subst hsz
      have hp0 : ptr = 0 := by omega
      subst hp0
      rw [readChunks]
      rw [show fileRead 0 0 (.ok chain) (List.replicate c 0)
          = .ok (List.replicate c 0, 0, 0) from rfl]
      dsimp only
      rw [ih 0 (by omega) h2]
      simp
    · rw [readChunks]
      rw [show fileRead size ptr (.ok chain) (List.replicate c 0)
          = .ok ((chain.drop ptr).take (min (size - ptr)
                    (List.replicate c (0 : Nat)).length)
                  ++ (List.replicate c (0 : Nat)).drop
                      (min (size - ptr) (List.replicate c (0 : Nat)).length),
                ptr + min (size - ptr) (List.replicate c (0 : Nat)).length,
                min (size - ptr) (List.replicate c (0 : Nat)).length)
        from by rw [fileRead, if_neg hsz]]
      dsimp only
      simp only [List.length_replicate]
      have hlen1 : ((chain.drop ptr).take (min (size - ptr) c)).length
          = min (size - ptr) c := by
        simp only [List.length_take, List.length_drop]
        omega
      rw [List.take_left' hlen1, ih (ptr + min (size - ptr) c) (by omega) h2]
      have hdd : chain.drop (ptr + min (size - ptr) c)
          = (chain.drop ptr).drop (min (size - ptr) c) := by
        rw [List.drop_drop]
      rw [hdd, ← List.take_add, List.sum_cons]
      congr 1
      omega

/-- C9.  Reading a file to end-of-file chunk by chunk (any chunk-size
sequences whose totals cover the file) concatenates to exactly `size` bytes,
and the bytes are identical for any two such sequences: the result is
independent of how the reads are chunked. -/
theorem file_read_chunking_invariant (chain : List Nat) (size : Nat)
    (cs1 cs2 : List Nat) (hsz : size ≤ chain.length)
    (h1 : size ≤ cs1.sum) (h2 : size ≤ cs2.sum) :
    readChunks size chain 0 cs1 = readChunks size chain 0 cs2
  ∧ (readChunks size chain 0 cs1).length = size := by
  have e1 := readChunks_eq size chain cs1 0 (by omega) hsz
  have e2 := readChunks_eq size chain cs2 0 (by omega) hsz
  rw [e1, e2]
  have hm1 : min (size - 0) cs1.sum = size := by omega
  have hm2 : min (size - 0) cs2.sum = size := by omega
  rw [hm1, hm2]
  refine ⟨rfl, ?_⟩
  simp only [List.length_take, List.length_drop]
  omega

/-- C9 witness: chunk sequences [3, 5] and [1, 1, 2] over a 4-byte file with
a 5-byte chain read the same 4 bytes. -/
theorem file_read_chunking_witness :
    readChunks 4 [1, 2, 3, 4, 5] 0 [3, 5] = readChunks 4 [1, 2, 3, 4, 5] 0 [1, 1, 2]
  ∧ (readChunks 4 [1, 2, 3, 4, 5] 0 [3, 5]).length = 4 :=
  file_read_chunking_invariant [1, 2, 3, 4, 5] 4 [3, 5] [1, 1, 2]
    (by decide) (by decide) (by decide)

end Fat32
